import Mathlib

/-
Verification of the bible-lib repository (src/src/lib.rs, src/src/error.rs).

Shallow embedding conventions:
- Rust `String`/`&str` values are modelled as `List Char` (`RStr`); the
  char-level case functions (`Char.toLower`, `Char.toUpper`, `Char.isDigit`,
  `Char.isWhitespace`) model Rust's `to_lowercase`/`to_uppercase`/
  `is_numeric`/`is_whitespace` on the ASCII range, where they agree.
- The three `HashMap` levels of `Bible.verses` are modelled as association
  lists with overwrite-on-insert (`alInsert`), which matches `HashMap::insert`
  semantics; iteration order of a `HashMap` is arbitrary, which the
  association-list order models faithfully.
- `u32` values are modelled as `Nat`; `u32::from_str` is modelled by
  `parseU32` including the `+` sign and the `2^32` overflow bound.
- A Rust panic (any `.unwrap()` failure) is modelled as `none`; fallible
  functions returning `Result` are modelled with `Except`.
- The filesystem touched by `Translation::get_text` is modelled by an explicit
  `FS` record (existence test and read outcome), and the four compile-time
  embedded translation texts by a `BuiltinTexts` record.
-/

abbrev RStr := List Char

/-- Convert a Lean string literal to the `List Char` model of Rust strings. -/
def str (s : String) : RStr := s.data

/-- Rust `str::split(sep)` for a one-char pattern: the list of segments
between occurrences of `sep`; always non-empty. -/
def splitOnChar (sep : Char) : RStr → List RStr
  | [] => [[]]
  | c :: rest =>
    if c = sep then [] :: splitOnChar sep rest
    else
      match splitOnChar sep rest with
      | [] => [[c]]
      | h :: t => (c :: h) :: t

/-- Rust `str::split_whitespace`: the maximal runs of non-whitespace
characters, in order; whitespace runs are discarded. -/
def splitWhitespace : RStr → List RStr
  | [] => []
  | c :: rest =>
    if c.isWhitespace then splitWhitespace rest
    else
      match rest with
      | [] => [[c]]
      | d :: _ =>
        if d.isWhitespace then [c] :: splitWhitespace rest
        else
          match splitWhitespace rest with
          | [] => [[c]]
          | w :: ws => (c :: w) :: ws

/-- Rust `[&str]::join(" ")`. -/
def joinSpace (l : List RStr) : RStr := List.intercalate [' '] l

/-- Rust `str::trim_start` (ASCII whitespace model). -/
def trimStart : RStr → RStr
  | [] => []
  | c :: rest => if c.isWhitespace then trimStart rest else c :: rest

/-- Rust `str::trim_end` (ASCII whitespace model). -/
def trimEnd (s : RStr) : RStr := (trimStart s.reverse).reverse

/-- Rust `str::trim` (ASCII whitespace model). -/
def trim (s : RStr) : RStr := trimEnd (trimStart s)

/-- Rust `str::to_lowercase`, modelled char-wise on the ASCII range. -/
def strToLower (s : RStr) : RStr := s.map Char.toLower

/-- Rust `u32::from_str`: optional leading `+`, then one or more ASCII
digits, rejecting the empty digit string and values at or above `2^32`. -/
def parseU32 (s : RStr) : Option Nat :=
  let digits := match s with
    | '+' :: rest => rest
    | other => other
  if digits = [] then none
  else if digits.all Char.isDigit then
    let n := digits.foldl (fun acc c => acc * 10 + (c.toNat - 48)) 0
    if n < 2 ^ 32 then some n else none
  else none

/-- Rust `u32::to_string`, via decimal digits. -/
def natToString (n : Nat) : RStr := Nat.toDigits 10 n

/-- Rust `str::lines`: split on `'\n'`, drop a final empty segment produced
by a trailing newline, and strip one trailing `'\r'` from each line. -/
def stripCr (line : RStr) : RStr :=
  match line.getLast? with
  | some r => if r = '\r' then line.dropLast else line
  | none => line

/-- Rust `str::lines` on the `RStr` model. -/
def rlines (s : RStr) : List RStr :=
  let segs := splitOnChar '\n' s
  (if segs.getLast? = some [] then segs.dropLast else segs).map stripCr

/-- Association-list lookup, modelling `HashMap::get`. -/
def alGet {κ α : Type} [DecidableEq κ] (k : κ) : List (κ × α) → Option α
  | [] => none
  | (k', v) :: rest => if k' = k then some v else alGet k rest

/-- Association-list insert with overwrite, modelling `HashMap::insert`. -/
def alInsert {κ α : Type} [DecidableEq κ] (k : κ) (v : α) : List (κ × α) → List (κ × α)
  | [] => [(k, v)]
  | (k', v') :: rest => if k' = k then (k, v) :: rest else (k', v') :: alInsert k v rest

/-- Innermost level of `Bible::verses`: verse number to verse text. -/
abbrev VerseMap := List (Nat × RStr)

/-- Middle level of `Bible::verses`: chapter number to verse map. -/
abbrev ChapterMap := List (Nat × VerseMap)

/-- Outer level of `Bible::verses`: lowercase book name to chapter map. -/
abbrev BookMap := List (RStr × ChapterMap)

instance : DecidableEq BookMap := List.hasDecEq

deriving instance DecidableEq for Except

/-- The error enum of src/src/error.rs. `std::io::Error` is opaque platform
data; its payload is modelled as a `Nat` tag. -/
inductive BibleLibError where
  | InvalidCustomTranslationFile
  | VerseNotFound
  | ChapterNotFound
  | BookNotFound
  | InvalidVerseFormat
  | IOError (e : Nat)
deriving DecidableEq

/-- The `Translation` enum of src/src/lib.rs (all features enabled). -/
inductive Translation where
  | AmericanKingJames
  | AmericanStandard
  | EnglishedRevised
  | KingJames
  | Custom (name : RStr) (path : RStr)
deriving DecidableEq

/-- The four compile-time embedded translation texts (`include_str!`
constants), whose contents are not part of the repository sources. -/
structure BuiltinTexts where
  akjv : RStr
  asv : RStr
  erv : RStr
  kjv : RStr

/-- Explicit model of the filesystem seen by `Translation::get_text`:
the `Path::exists` test and the outcome of `fs::read_to_string`
(either the content or an I/O error tag). -/
structure FS where
  pathExists : RStr → Bool
  readToString : RStr → Except Nat RStr

/-- `Translation::get_text` (src/src/lib.rs lines 61-90). -/
def Translation.get_text (t : Translation) (bt : BuiltinTexts) (fs : FS) :
    Except BibleLibError RStr :=
  match t with
  | .AmericanKingJames => .ok bt.akjv
  | .AmericanStandard => .ok bt.asv
  | .EnglishedRevised => .ok bt.erv
  | .KingJames => .ok bt.kjv
  | .Custom _ path =>
    if fs.pathExists path = false then .error .InvalidCustomTranslationFile
    else
      match fs.readToString path with
      | .ok content => .ok content
      | .error e => .error (.IOError e)

/-- The `BibleLookup` struct (src/src/lib.rs lines 146-152). -/
structure BibleLookup where
  book : RStr
  chapter : Nat
  verse : Nat
  thru_verse : Option Nat
deriving DecidableEq

/-- `BibleLookup::new` (lines 164-173): stores the book name lowercased. -/
def BibleLookup.new (book : RStr) (chapter verse : Nat) : BibleLookup :=
  ⟨strToLower book, chapter, verse, none⟩

/-- `BibleLookup::new_range` (lines 183-192): stores the book name
lowercased and the inclusive range end. -/
def BibleLookup.new_range (book : RStr) (chapter verse thru : Nat) : BibleLookup :=
  ⟨strToLower book, chapter, verse, some thru⟩

/-- `BibleLookup::capitalize_book` (lines 279-303): uppercase the first char
of each whitespace-separated word unless that char is numeric. -/
def capitalize_book (name : RStr) : RStr :=
  joinSpace ((splitWhitespace name).map (fun word =>
    match word with
    | [] => []
    | first :: rest =>
      if first.isDigit then first :: rest
      else Char.toUpper first :: rest))

/-- One line of `Bible::parse_text` (lines 347-366): every `.unwrap()` that
can fail (a missing second colon segment, an empty book/chapter segment, an
unparsable chapter or verse number, a missing verse token) is a panic,
modelled as `none`. On success, yields (book, chapter, verse, text). -/
def parseLine (line : RStr) : Option (RStr × Nat × Nat × RStr) :=
  match (splitWhitespace ((splitOnChar ':' line).headD [])).getLast? with
  | none => none
  | some lastTok =>
    match parseU32 lastTok with
    | none => none
    | some chapter =>
      match (splitOnChar ':' line)[1]? with
      | none => none
      | some verseTextStr =>
        match (splitWhitespace verseTextStr).head? with
        | none => none
        | some verseTok =>
          match parseU32 verseTok with
          | none => none
          | some verse =>
            some (strToLower (joinSpace
                ((splitWhitespace ((splitOnChar ':' line).headD [])).take
                  ((splitWhitespace ((splitOnChar ':' line).headD [])).length - 1))),
              chapter, verse,
              joinSpace ((splitWhitespace verseTextStr).drop 1))

/-- The three-level create-if-absent-then-insert of `parse_text`
(lines 360-366). -/
def bibleInsert (m : BookMap) (book : RStr) (chapter verse : Nat) (text : RStr) : BookMap :=
  let chMap := (alGet book m).getD []
  let vMap := (alGet chapter chMap).getD []
  alInsert book (alInsert chapter (alInsert verse text vMap) chMap) m

/-- The line loop of `Bible::parse_text`; a panic on any line aborts the
whole parse (`none`). -/
def parseTextGo (acc : BookMap) : List RStr → Option BookMap
  | [] => some acc
  | line :: rest =>
    match parseLine line with
    | none => none
    | some (book, chapter, verse, text) =>
      parseTextGo (bibleInsert acc book chapter verse text) rest

/-- `Bible::parse_text` (lines 344-370). -/
def parse_text (lines : List RStr) : Option BookMap := parseTextGo [] lines

/-- The `Bible` struct (lines 333-339). -/
structure Bible where
  translation : Translation
  verses : BookMap
deriving DecidableEq

/-- `Bible::new` (lines 373-380): load the text, then parse it; a parse
panic is `none`, a load failure is the propagated typed error. -/
def Bible.new (bt : BuiltinTexts) (fs : FS) (t : Translation) :
    Option (Except BibleLibError Bible) :=
  match t.get_text bt fs with
  | .error e => some (.error e)
  | .ok text =>
    match parse_text (rlines text) with
    | none => none
    | some verses => some (.ok ⟨t, verses⟩)

/-- The digit table of `Bible::replace_superscript` (lines 388-404). -/
def supChar (c : Char) : Char :=
  match c with
  | '0' => '⁰'
  | '1' => '¹'
  | '2' => '²'
  | '3' => '³'
  | '4' => '⁴'
  | '5' => '⁵'
  | '6' => '⁶'
  | '7' => '⁷'
  | '8' => '⁸'
  | '9' => '⁹'
  | other => other

/-- `Bible::replace_superscript` (lines 388-404). -/
def replace_superscript (s : RStr) : RStr := s.map supChar

/-- Rust `a..=b` over `u32`, as a list: empty when `b < a`. -/
def rangeIncl (a b : Nat) : List Nat := List.range' a (b + 1 - a)

/-- The range loop of `Bible::get_verse` (lines 425-446): for each verse
number in turn, re-look up book, chapter and verse (erroring at the first
missing level); with superscripts the piece is `superscript ++ text ++ " "`,
without them it is just `text`; the accumulated string is trimmed at the
end. -/
def rangeLoop (verses : BookMap) (book : RStr) (chapter : Nat) (useSup : Bool) :
    List Nat → RStr → Except BibleLibError RStr
  | [], acc => .ok (trim acc)
  | v :: rest, acc =>
    match alGet book verses with
    | none => .error .BookNotFound
    | some chapters =>
      match alGet chapter chapters with
      | none => .error .ChapterNotFound
      | some vmap =>
        match alGet v vmap with
        | none => .error .VerseNotFound
        | some text =>
          rangeLoop verses book chapter useSup rest
            (acc ++ (if useSup then replace_superscript (natToString v) ++ text ++ [' ']
                     else text))

/-- `Bible::get_verse` (lines 423-465). -/
def Bible.get_verse (self : Bible) (lookup : BibleLookup) (useSup : Bool) :
    Except BibleLibError RStr :=
  match lookup.thru_verse with
  | some thru =>
    rangeLoop self.verses lookup.book lookup.chapter useSup
      (rangeIncl lookup.verse thru) []
  | none =>
    match alGet lookup.book self.verses with
    | none => .error .BookNotFound
    | some chapters =>
      match alGet lookup.chapter chapters with
      | none => .error .ChapterNotFound
      | some vmap =>
        match alGet lookup.verse vmap with
        | none => .error .VerseNotFound
        | some text =>
          .ok (if useSup then replace_superscript (natToString lookup.verse) ++ text
               else text)

/-- The key comparison of `verses.sort_by(|a, b| a.0.cmp(b.0))`. -/
def keyLe (a b : Nat × RStr) : Prop := a.1 ≤ b.1

instance : DecidableRel keyLe := fun a b => Nat.decLe a.1 b.1

instance : IsTotal (Nat × RStr) keyLe := ⟨fun a b => Nat.le_total a.1 b.1⟩

instance : IsTrans (Nat × RStr) keyLe := ⟨fun _ _ _ h1 h2 => Nat.le_trans h1 h2⟩

/-- `Bible::get_chapter` (lines 482-502): two-level lookup, sort the verse
entries by verse number, then concatenate `superscript ++ text ++ " "` or
`text ++ " "` per verse. Rust's `sort_by` is a stable comparison sort; the
entry lists iterated from a `HashMap` have pairwise-distinct keys, on which
every comparison sort by key agrees, so insertion sort models it exactly. -/
def Bible.get_chapter (self : Bible) (book : RStr) (chapter : Nat) (useSup : Bool) :
    Except BibleLibError RStr :=
  match alGet book self.verses with
  | none => .error .BookNotFound
  | some chapters =>
    match alGet chapter chapters with
    | none => .error .ChapterNotFound
    | some vmap =>
      let sorted := List.insertionSort keyLe vmap
      .ok (sorted.foldl (fun acc p =>
        acc ++ (if useSup then replace_superscript (natToString p.1) ++ p.2 ++ [' ']
                else p.2 ++ [' '])) [])

/-- `Bible::get_books` (lines 517-519). -/
def Bible.get_books (self : Bible) : List RStr := self.verses.map Prod.fst

/-- `Bible::get_chapters` (lines 534-540). -/
def Bible.get_chapters (self : Bible) (book : RStr) : Except BibleLibError (List Nat) :=
  match (alGet book self.verses).map (fun chapters => chapters.map Prod.fst) with
  | some cs => .ok cs
  | none => .error .BookNotFound

/-- `Bible::get_verses` (lines 555-563): book-then-chapter chained lookup,
with one collapsed error kind. -/
def Bible.get_verses (self : Bible) (book : RStr) (chapter : Nat) :
    Except BibleLibError (List Nat) :=
  match ((alGet book self.verses).bind (fun chapters => alGet chapter chapters)).map
      (fun vmap => vmap.map Prod.fst) with
  | some vs => .ok vs
  | none => .error .ChapterNotFound

/-- `Bible::get_max_verse` (lines 566-577). -/
def Bible.get_max_verse (self : Bible) (book : RStr) (chapter : Nat) :
    Except BibleLibError Nat :=
  match (alGet book self.verses).bind (fun chapters => alGet chapter chapters) with
  | some vmap =>
    match (vmap.map Prod.fst).max? with
    | some m => .ok m
    | none => .error .ChapterNotFound
  | none => .error .ChapterNotFound

/- ## Helper lemmas -/

lemma isUpper_eq_decide (c : Char) : c.isUpper = decide (65 ≤ c.toNat ∧ c.toNat ≤ 90) := by
  rcases c with ⟨⟨⟨n, hn⟩⟩, hv⟩
  simp [Char.isUpper, UInt32.le_def, BitVec.le_def, Char.toNat, UInt32.toNat]

lemma toLower_isUpper_false (c : Char) : (Char.toLower c).isUpper = false := by
  show (if c.toNat ≥ 65 ∧ c.toNat ≤ 90 then Char.ofNat (c.toNat + 32) else c).isUpper = false
  split
  · next h =>
    obtain ⟨h1, h2⟩ := h
    interval_cases h3 : c.toNat <;> rfl
  · next h =>
    rw [isUpper_eq_decide]
    simp only [decide_eq_false_iff_not]
    omega

lemma toLower_eq_self (c : Char) (h : c.isUpper = false) : Char.toLower c = c := by
  show (if c.toNat ≥ 65 ∧ c.toNat ≤ 90 then Char.ofNat (c.toNat + 32) else c) = c
  rw [isUpper_eq_decide] at h
  simp only [decide_eq_false_iff_not] at h
  rw [if_neg]
  omega

lemma toLower_idem (c : Char) : Char.toLower (Char.toLower c) = Char.toLower c :=
  toLower_eq_self _ (toLower_isUpper_false c)

lemma strToLower_idem (s : RStr) : strToLower (strToLower s) = strToLower s := by
  induction s with
  | nil => rfl
  | cons c rest ih =>
    show Char.toLower (Char.toLower c) :: strToLower (strToLower rest) =
      Char.toLower c :: strToLower rest
    rw [toLower_idem, ih]

lemma strToLower_no_upper (s : RStr) : ∀ ch ∈ strToLower s, ch.isUpper = false := by
  intro ch hch
  obtain ⟨c, _, rfl⟩ := List.mem_map.mp hch
  exact toLower_isUpper_false c

lemma alGet_eq_none {κ α : Type} [DecidableEq κ] {k : κ} {m : List (κ × α)}
    (h : ∀ p ∈ m, p.1 ≠ k) : alGet k m = none := by
  induction m with
  | nil => rfl
  | cons p rest ih =>
    obtain ⟨k', v⟩ := p
    show (if k' = k then some v else alGet k rest) = none
    rw [if_neg (h (k', v) (List.mem_cons_self _ _))]
    exact ih fun q hq => h q (List.mem_cons_of_mem _ hq)

lemma alGet_mem {κ α : Type} [DecidableEq κ] {k : κ} {v : α} {m : List (κ × α)}
    (h : alGet k m = some v) : (k, v) ∈ m := by
  induction m with
  | nil => exact absurd h (by simp [alGet])
  | cons p rest ih =>
    obtain ⟨k', v'⟩ := p
    rw [show alGet k ((k', v') :: rest) = if k' = k then some v' else alGet k rest from rfl] at h
    by_cases hk : k' = k
    · rw [if_pos hk] at h
      obtain rfl : v' = v := Option.some.inj h
      subst hk
      exact List.mem_cons_self _ _
    · rw [if_neg hk] at h
      exact List.mem_cons_of_mem _ (ih h)

lemma mem_alInsert {κ α : Type} [DecidableEq κ] {k : κ} {v : α} {m : List (κ × α)}
    {p : κ × α} (h : p ∈ alInsert k v m) : p = (k, v) ∨ p ∈ m := by
  induction m with
  | nil =>
    left
    simpa [alInsert] using h
  | cons q rest ih =>
    obtain ⟨k', v'⟩ := q
    rw [show alInsert k v ((k', v') :: rest) =
      if k' = k then (k, v) :: rest else (k', v') :: alInsert k v rest from rfl] at h
    by_cases hk : k' = k
    · rw [if_pos hk] at h
      rcases List.mem_cons.mp h with h | h
      · exact Or.inl h
      · exact Or.inr (List.mem_cons_of_mem _ h)
    · rw [if_neg hk] at h
      rcases List.mem_cons.mp h with h | h
      · exact Or.inr (h ▸ List.mem_cons_self _ _)
      · rcases ih h with h | h
        · exact Or.inl h
        · exact Or.inr (List.mem_cons_of_mem _ h)

lemma mem_keys_alInsert {κ α : Type} [DecidableEq κ] {k a : κ} {v : α} {m : List (κ × α)}
    (h : a ∈ (alInsert k v m).map Prod.fst) : a = k ∨ a ∈ m.map Prod.fst := by
  obtain ⟨p, hp, rfl⟩ := List.mem_map.mp h
  rcases mem_alInsert hp with h | h
  · exact Or.inl (by rw [h])
  · exact Or.inr (List.mem_map_of_mem Prod.fst h)

lemma alInsert_keys_nodup {κ α : Type} [DecidableEq κ] {k : κ} {v : α} {m : List (κ × α)}
    (h : (m.map Prod.fst).Nodup) : ((alInsert k v m).map Prod.fst).Nodup := by
  induction m with
  | nil => simp [alInsert]
  | cons q rest ih =>
    obtain ⟨k', v'⟩ := q
    rw [List.map_cons, List.nodup_cons] at h
    obtain ⟨hk', hrest⟩ := h
    rw [show alInsert k v ((k', v') :: rest) =
      if k' = k then (k, v) :: rest else (k', v') :: alInsert k v rest from rfl]
    by_cases hk : k' = k
    · rw [if_pos hk]
      subst hk
      rw [List.map_cons, List.nodup_cons]
      exact ⟨hk', hrest⟩
    · rw [if_neg hk]
      rw [List.map_cons, List.nodup_cons]
      refine ⟨fun hmem => ?_, ih hrest⟩
      rcases mem_keys_alInsert hmem with h | h
      · exact hk h
      · exact hk' h

/-- Every verse map reachable in the index has pairwise-distinct verse
numbers — the `HashMap` key-uniqueness invariant the embedding must carry. -/
def VMapsNodup (m : BookMap) : Prop :=
  ∀ chm ∈ m.map Prod.snd, ∀ vm ∈ chm.map Prod.snd, (vm.map Prod.fst).Nodup

lemma vMapsNodup_nil : VMapsNodup [] := by
  intro chm hchm
  simp at hchm

lemma bibleInsert_vmaps_nodup {m : BookMap} {b : RStr} {c v : Nat} {t : RStr}
    (h : VMapsNodup m) : VMapsNodup (bibleInsert m b c v t) := by
  intro chm hchm vm hvm
  obtain ⟨⟨bk, chm'⟩, hmem, rfl⟩ := List.mem_map.mp hchm
  rcases mem_alInsert hmem with heq | hmem'
  · have hc2 : chm' =
        alInsert c (alInsert v t ((alGet c ((alGet b m).getD [])).getD [])) ((alGet b m).getD []) :=
      congrArg Prod.snd heq
    subst hc2
    obtain ⟨⟨ck, vm'⟩, hvmem, rfl⟩ := List.mem_map.mp hvm
    rcases mem_alInsert hvmem with heq2 | hvmem'
    · have hv2 : vm' = alInsert v t ((alGet c ((alGet b m).getD [])).getD []) :=
        congrArg Prod.snd heq2
      subst hv2
      apply alInsert_keys_nodup
      cases hvc : alGet c ((alGet b m).getD []) with
      | none => simp
      | some vm0 =>
        simp only [Option.getD_some]
        cases hbc : alGet b m with
        | none =>
          rw [hbc] at hvc
          simp [alGet] at hvc
        | some chm0 =>
          rw [hbc] at hvc
          exact h chm0 (List.mem_map_of_mem Prod.snd (alGet_mem hbc)) vm0
            (List.mem_map_of_mem Prod.snd (alGet_mem hvc))
    · cases hbc : alGet b m with
      | none => simp [hbc] at hvmem'
      | some chm0 =>
        rw [hbc] at hvmem'
        exact h chm0 (List.mem_map_of_mem Prod.snd (alGet_mem hbc)) vm'
          (List.mem_map_of_mem Prod.snd hvmem')
  · exact h chm' (List.mem_map_of_mem Prod.snd hmem') vm hvm

lemma parseTextGo_vmaps_nodup {lines : List RStr} :
    ∀ {acc M : BookMap}, VMapsNodup acc → parseTextGo acc lines = some M → VMapsNodup M := by
  induction lines with
  | nil =>
    intro acc M hacc h
    obtain rfl : acc = M := Option.some.inj h
    exact hacc
  | cons line rest ih =>
    intro acc M hacc h
    rw [show parseTextGo acc (line :: rest) =
      (match parseLine line with
       | none => none
       | some (book, chapter, verse, text) =>
         parseTextGo (bibleInsert acc book chapter verse text) rest) from rfl] at h
    cases hp : parseLine line with
    | none => rw [hp] at h; exact absurd h (by simp)
    | some q =>
      obtain ⟨book, chapter, verse, text⟩ := q
      rw [hp] at h
      exact ih (bibleInsert_vmaps_nodup hacc) h

/-- Every index `parse_text` produces satisfies the key-uniqueness invariant
of its verse maps. -/
lemma parse_text_vmaps_nodup {lines : List RStr} {M : BookMap}
    (h : parse_text lines = some M) : VMapsNodup M :=
  parseTextGo_vmaps_nodup vMapsNodup_nil h

/-- All book keys of the index are free of (ASCII) uppercase letters —
they are stored lowercased by the parser. -/
def BookKeysNoUpper (m : BookMap) : Prop :=
  ∀ k ∈ m.map Prod.fst, ∀ ch ∈ k, ch.isUpper = false

lemma parseLine_book_shape (line : RStr) :
    parseLine line = none ∨
      ∃ s : RStr, ∃ c v : Nat, ∃ t : RStr, parseLine line = some (strToLower s, c, v, t) := by
  unfold parseLine
  repeat' split
  all_goals first
  | exact Or.inl rfl
  | exact Or.inr ⟨_, _, _, _, rfl⟩

lemma parseLine_book_no_upper {line book : RStr} {c v : Nat} {t : RStr}
    (h : parseLine line = some (book, c, v, t)) : ∀ ch ∈ book, ch.isUpper = false := by
  rcases parseLine_book_shape line with hn | ⟨s, c', v', t', hs⟩
  · rw [hn] at h
    exact absurd h (by simp)
  · rw [hs] at h
    have hb : strToLower s = book := congrArg (fun q => q.1) (Option.some.inj h)
    rw [← hb]
    exact strToLower_no_upper s

lemma bibleInsert_keys_no_upper {m : BookMap} {b : RStr} {c v : Nat} {t : RStr}
    (hm : BookKeysNoUpper m) (hb : ∀ ch ∈ b, ch.isUpper = false) :
    BookKeysNoUpper (bibleInsert m b c v t) := by
  intro k hk
  rcases mem_keys_alInsert hk with rfl | hk'
  · exact hb
  · exact hm k hk'

lemma parseTextGo_keys_no_upper {lines : List RStr} :
    ∀ {acc M : BookMap}, BookKeysNoUpper acc → parseTextGo acc lines = some M →
      BookKeysNoUpper M := by
  induction lines with
  | nil =>
    intro acc M hacc h
    obtain rfl : acc = M := Option.some.inj h
    exact hacc
  | cons line rest ih =>
    intro acc M hacc h
    rw [show parseTextGo acc (line :: rest) =
      (match parseLine line with
       | none => none
       | some (book, chapter, verse, text) =>
         parseTextGo (bibleInsert acc book chapter verse text) rest) from rfl] at h
    cases hp : parseLine line with
    | none => rw [hp] at h; exact absurd h (by simp)
    | some q =>
      obtain ⟨book, chapter, verse, text⟩ := q
      rw [hp] at h
      exact ih (bibleInsert_keys_no_upper hacc (parseLine_book_no_upper hp)) h

/-- Every index `parse_text` produces has only lowercase-normalised
(uppercase-free) book keys. -/
lemma parse_text_keys_no_upper {lines : List RStr} {M : BookMap}
    (h : parse_text lines = some M) : BookKeysNoUpper M :=
  parseTextGo_keys_no_upper (fun k hk => by simp at hk) h

lemma parseTextGo_isSome {lines : List RStr}
    (h : ∀ line ∈ lines, (parseLine line).isSome) :
    ∀ acc : BookMap, (parseTextGo acc lines).isSome := by
  induction lines with
  | nil => intro acc; rfl
  | cons line rest ih =>
    intro acc
    rw [show parseTextGo acc (line :: rest) =
      (match parseLine line with
       | none => none
       | some (book, chapter, verse, text) =>
         parseTextGo (bibleInsert acc book chapter verse text) rest) from rfl]
    cases hp : parseLine line with
    | none =>
      have := h line (List.mem_cons_self _ _)
      rw [hp] at this
      exact absurd this (by simp)
    | some q =>
      obtain ⟨book, chapter, verse, text⟩ := q
      exact ih (fun l hl => h l (List.mem_cons_of_mem _ hl)) _

lemma get_chapter_foldl (sup : Bool) (l : VerseMap) (acc : RStr) :
    l.foldl (fun a p =>
        a ++ (if sup then replace_superscript (natToString p.1) ++ p.2 ++ [' ']
              else p.2 ++ [' '])) acc =
      acc ++ (l.map (fun p =>
        if sup then replace_superscript (natToString p.1) ++ p.2 ++ [' ']
        else p.2 ++ [' '])).flatten := by
  induction l generalizing acc with
  | nil => simp
  | cons p rest ih =>
    rw [List.foldl_cons, ih, List.map_cons, List.flatten_cons, ← List.append_assoc]

/-- The strict key order underlying a sorted verse listing. -/
def keyLt (a b : Nat × RStr) : Prop := a.1 < b.1

instance : IsAntisymm (Nat × RStr) keyLt :=
  ⟨fun _ _ h1 h2 => absurd (Nat.lt_trans h1 h2) (Nat.lt_irrefl _)⟩

lemma sorted_strict_of_nodup {l : VerseMap} (hs : l.Pairwise keyLe)
    (hnd : (l.map Prod.fst).Nodup) : l.Pairwise keyLt := by
  have h2 : l.Pairwise (fun a b : Nat × RStr => a.1 ≠ b.1) := List.pairwise_map.mp hnd
  exact (hs.and h2).imp fun h => Nat.lt_of_le_of_ne h.1 h.2

lemma rangeIncl_ne_nil {a b : Nat} (h : a ≤ b) : rangeIncl a b ≠ [] := by
  unfold rangeIncl
  intro hc
  have := congrArg List.length hc
  rw [List.length_range'] at this
  simp at this
  omega

lemma rangeIncl_nil {a b : Nat} (h : b < a) : rangeIncl a b = [] := by
  unfold rangeIncl
  have hz : b + 1 - a = 0 := by omega
  rw [hz]
  rfl

lemma rangeLoop_err_book {V : BookMap} {b : RStr} {c : Nat} {s : Bool} (l : List Nat) :
    ∀ acc : RStr, rangeLoop V b c s l acc = .error .BookNotFound ↔
      l ≠ [] ∧ alGet b V = none := by
  induction l with
  | nil => intro acc; simp [rangeLoop]
  | cons v rest ih =>
    intro acc
    cases hb : alGet b V with
    | none => simp [rangeLoop, hb]
    | some chm =>
      cases hc : alGet c chm with
      | none => simp [rangeLoop, hb, hc]
      | some vm =>
        cases hv : alGet v vm with
        | none => simp [rangeLoop, hb, hc, hv]
        | some tx => simp [rangeLoop, hb, hc, hv, ih]

lemma rangeLoop_err_chapter {V : BookMap} {b : RStr} {c : Nat} {s : Bool} (l : List Nat) :
    ∀ acc : RStr, rangeLoop V b c s l acc = .error .ChapterNotFound ↔
      l ≠ [] ∧ ∃ chm, alGet b V = some chm ∧ alGet c chm = none := by
  induction l with
  | nil => intro acc; simp [rangeLoop]
  | cons v rest ih =>
    intro acc
    cases hb : alGet b V with
    | none => simp [rangeLoop, hb]
    | some chm =>
      cases hc : alGet c chm with
      | none => simp [rangeLoop, hb, hc]
      | some vm =>
        cases hv : alGet v vm with
        | none => simp [rangeLoop, hb, hc, hv]
        | some tx => simp [rangeLoop, hb, hc, hv, ih]

lemma rangeLoop_err_verse {V : BookMap} {b : RStr} {c : Nat} {s : Bool} (l : List Nat) :
    ∀ acc : RStr, rangeLoop V b c s l acc = .error .VerseNotFound ↔
      ∃ chm vm, alGet b V = some chm ∧ alGet c chm = some vm ∧
        ∃ v ∈ l, alGet v vm = none := by
  induction l with
  | nil => intro acc; simp [rangeLoop]
  | cons v rest ih =>
    intro acc
    cases hb : alGet b V with
    | none => simp [rangeLoop, hb]
    | some chm =>
      cases hc : alGet c chm with
      | none => simp [rangeLoop, hb, hc]
      | some vm =>
        cases hv : alGet v vm with
        | none => simp [rangeLoop, hb, hc, hv]
        | some tx => simp [rangeLoop, hb, hc, hv, ih]

/-- The list of verse numbers a lookup requests: a singleton for a single
lookup, the inclusive range for a range lookup (possibly empty). -/
def requestedVerses (l : BibleLookup) : List Nat :=
  match l.thru_verse with
  | none => [l.verse]
  | some t => rangeIncl l.verse t

/- ## Claim theorems -/

/-- Claim C1: the spec says a single-verse `get_verse` returns everything
after the FIRST colon of the source line (minus the verse-number token,
space-rejoined, trimmed), including when the verse text itself contains a
colon. The code instead takes only the segment between the first and second
colon (`parts.next()` after `split(':')`), silently dropping the rest: for
the line `John 3:16 He said: hi` it stores and returns `He said`, not
`He said: hi`. -/
theorem C1_colon_truncation :
    parse_text [str "John 3:16 He said: hi"] =
      some [(str "john", [(3, [(16, str "He said")])])] ∧
    Bible.get_verse ⟨Translation.KingJames, [(str "john", [(3, [(16, str "He said")])])]⟩
      ⟨str "john", 3, 16, none⟩ false = .ok (str "He said") ∧
    str "He said" ≠ str "He said: hi" := by
  refine ⟨by decide, by decide, by decide⟩

/-- Claim C2: the spec says a range `get_verse` with superscripts off equals
the single-verse results joined with single spaces and trimmed. The code's
non-superscript range branch pushes each verse text with NO separator
(`verse_text.push_str(text)`), so for verses `x` and `y` it returns `xy`
where the claim demands `x y`. -/
theorem C2_range_no_separator :
    parse_text [str "b 1:1 x", str "b 1:2 y"] =
      some [(str "b", [(1, [(1, str "x"), (2, str "y")])])] ∧
    Bible.get_verse ⟨Translation.KingJames, [(str "b", [(1, [(1, str "x"), (2, str "y")])])]⟩
      ⟨str "b", 1, 1, some 2⟩ false = .ok (str "xy") ∧
    Bible.get_verse ⟨Translation.KingJames, [(str "b", [(1, [(1, str "x"), (2, str "y")])])]⟩
      ⟨str "b", 1, 1, none⟩ false = .ok (str "x") ∧
    Bible.get_verse ⟨Translation.KingJames, [(str "b", [(1, [(1, str "x"), (2, str "y")])])]⟩
      ⟨str "b", 1, 2, none⟩ false = .ok (str "y") ∧
    trim (joinSpace [str "x", str "y"]) = str "x y" ∧
    str "xy" ≠ str "x y" := by
  refine ⟨by decide, by decide, by decide, by decide, by decide, by decide⟩

/-- Claim C9: whenever `thru_verse` is `Some t` with `t` strictly below the
start verse, the `for verse in lookup.verse..=thru_verse` loop body never
runs, so `get_verse` returns `Ok("")` for either superscript setting and
performs no lookup — no `BookNotFound`/`ChapterNotFound` can be raised even
when the book or chapter is absent (the index is arbitrary here). -/
theorem C9_empty_range_ok (B : Bible) (l : BibleLookup) (sup : Bool) (t : Nat)
    (h1 : l.thru_verse = some t) (h2 : t < l.verse) :
    B.get_verse l sup = .ok [] := by
  unfold Bible.get_verse
  rw [h1]
  show rangeLoop B.verses l.book l.chapter sup (rangeIncl l.verse t) [] = .ok []
  rw [rangeIncl_nil h2]
  rfl

/-- Witness for C9 at a concrete empty index and empty range. -/
theorem C9_witness :
    Bible.get_verse ⟨Translation.KingJames, []⟩ ⟨str "x", 1, 5, some 3⟩ true = .ok [] :=
  C9_empty_range_ok ⟨Translation.KingJames, []⟩ ⟨str "x", 1, 5, some 3⟩ true 3 rfl
    (by decide)

/-- Claim C5: for an absent book key, `get_chapters` fails with
`BookNotFound` while `get_verses` and `get_max_verse` fail with
`ChapterNotFound` (their chained book-then-chapter lookup collapses the
missing book into the chapter-level error); `get_max_verse` also fails with
`ChapterNotFound` when the chapter mapping exists but holds no verses. -/
theorem C5_enumeration_errors (B : Bible) (book : RStr) (chapter : Nat) :
    (alGet book B.verses = none →
      B.get_chapters book = .error .BookNotFound ∧
      B.get_verses book chapter = .error .ChapterNotFound ∧
      B.get_max_verse book chapter = .error .ChapterNotFound) ∧
    (∀ chm : ChapterMap, alGet book B.verses = some chm → alGet chapter chm = some [] →
      B.get_max_verse book chapter = .error .ChapterNotFound) := by
  constructor
  · intro h
    refine ⟨?_, ?_, ?_⟩ <;>
      simp [Bible.get_chapters, Bible.get_verses, Bible.get_max_verse, h]
  · intro chm h1 h2
    simp [Bible.get_max_verse, h1, h2]

/-- Witness for C5 at concrete indexes: an absent book, and a present but
empty chapter. -/
theorem C5_witness :
    Bible.get_chapters ⟨Translation.KingJames, []⟩ (str "a") = .error .BookNotFound ∧
    Bible.get_verses ⟨Translation.KingJames, []⟩ (str "a") 1 = .error .ChapterNotFound ∧
    Bible.get_max_verse ⟨Translation.KingJames, []⟩ (str "a") 1 = .error .ChapterNotFound ∧
    Bible.get_max_verse ⟨Translation.KingJames, [(str "b", [(2, [])])]⟩ (str "b") 2 =
      .error .ChapterNotFound := by
  refine ⟨?_, ?_, ?_, ?_⟩
  · exact ((C5_enumeration_errors ⟨Translation.KingJames, []⟩ (str "a") 1).1 rfl).1
  · exact ((C5_enumeration_errors ⟨Translation.KingJames, []⟩ (str "a") 1).1 rfl).2.1
  · exact ((C5_enumeration_errors ⟨Translation.KingJames, []⟩ (str "a") 1).1 rfl).2.2
  · exact (C5_enumeration_errors ⟨Translation.KingJames, [(str "b", [(2, [])])]⟩
      (str "b") 2).2 [(2, [])] (by decide) (by decide)

/-- Claim C6: loading a Custom translation fails with
`InvalidCustomTranslationFile` exactly when the path does not exist; when it
exists and the read fails, the call fails with `IOError` wrapping the read's
error; when the read succeeds the content is returned unchanged (one read,
no retry — the model performs a single `readToString`). -/
theorem C6_custom_translation_loading (bt : BuiltinTexts) (fs : FS) (nm path : RStr) :
    ((Translation.Custom nm path).get_text bt fs = .error .InvalidCustomTranslationFile ↔
      fs.pathExists path = false) ∧
    (∀ e : Nat, fs.pathExists path = true → fs.readToString path = .error e →
      (Translation.Custom nm path).get_text bt fs = .error (.IOError e)) ∧
    (∀ content : RStr, fs.pathExists path = true → fs.readToString path = .ok content →
      (Translation.Custom nm path).get_text bt fs = .ok content) := by
  refine ⟨?_, ?_, ?_⟩
  · cases hpe : fs.pathExists path
    · simp [Translation.get_text, hpe]
    · cases hr : fs.readToString path <;> simp [Translation.get_text, hpe, hr]
  · intro e hpe hr
    simp [Translation.get_text, hpe, hr]
  · intro content hpe hr
    simp [Translation.get_text, hpe, hr]

/-- Witness for C6 at three concrete filesystems: missing path, failing
read, successful read. -/
theorem C6_witness :
    Translation.get_text (.Custom (str "n") (str "p")) ⟨[], [], [], []⟩
      ⟨fun _ => false, fun _ => .ok []⟩ = .error .InvalidCustomTranslationFile ∧
    Translation.get_text (.Custom (str "n") (str "p")) ⟨[], [], [], []⟩
      ⟨fun _ => true, fun _ => .error 7⟩ = .error (.IOError 7) ∧
    Translation.get_text (.Custom (str "n") (str "p")) ⟨[], [], [], []⟩
      ⟨fun _ => true, fun _ => .ok (str "t")⟩ = .ok (str "t") := by
  refine ⟨?_, ?_, ?_⟩
  · exact (C6_custom_translation_loading ⟨[], [], [], []⟩
      ⟨fun _ => false, fun _ => .ok []⟩ (str "n") (str "p")).1.mpr rfl
  · exact (C6_custom_translation_loading ⟨[], [], [], []⟩
      ⟨fun _ => true, fun _ => .error 7⟩ (str "n") (str "p")).2.1 7 rfl rfl
  · exact (C6_custom_translation_loading ⟨[], [], [], []⟩
      ⟨fun _ => true, fun _ => .ok (str "t")⟩ (str "n") (str "p")).2.2 (str "t") rfl rfl

/-- The per-word transformation exactly as the spec words it: a word whose
first character is numeric is left entirely unchanged; otherwise its first
character is uppercased and the rest of the word is unchanged. -/
def capWordSpec (w : RStr) : RStr :=
  match w.head? with
  | none => []
  | some c => if c.isDigit then w else Char.toUpper c :: w.tail

/-- Claim C7: `capitalize_book` uppercases the first character of each
whitespace-separated word and leaves the rest unchanged, except that a word
whose first character is numeric is left entirely unchanged; in particular
it maps `1 samuel` to `1 Samuel`, `john` to `John`, and `song of solomon`
to `Song Of Solomon`. -/
theorem C7_capitalize_book (name : RStr) :
    capitalize_book name = joinSpace ((splitWhitespace name).map capWordSpec) ∧
    capitalize_book (str "1 samuel") = str "1 Samuel" ∧
    capitalize_book (str "john") = str "John" ∧
    capitalize_book (str "song of solomon") = str "Song Of Solomon" := by
  refine ⟨?_, by decide, by decide, by decide⟩
  unfold capitalize_book
  congr 1
  have hfun : (fun word : RStr =>
      match word with
      | [] => []
      | first :: rest =>
        if first.isDigit then first :: rest
        else Char.toUpper first :: rest) = capWordSpec := by
    funext w
    cases w with
    | nil => rfl
    | cons first rest => rfl
  rw [hfun]

/-- Claim C8 counterexample: the claim says no input text makes `Bible::new`
abort instead of returning a typed result, but on the one-line text `hello`
(no colon, unparsable chapter number) the parser's `.unwrap()` panics —
modelled as `none` — so construction is an untyped abort, not `Ok`/`Err`. -/
theorem C8_counterexample :
    Bible.new ⟨[], [], [], []⟩ ⟨fun _ => true, fun _ => .ok (str "hello")⟩
      (.Custom (str "n") (str "p")) = none := by
  decide

/-- Claim C8 (amended): `Bible::new` returns the typed load error when the
translation text cannot be obtained, and returns `Ok` whenever every line of
the loaded text parses; a malformed line (missing colon, unparsable
book/chapter or verse segment) instead panics — an untyped abort, not a
typed error. -/
theorem C8_new_total_on_wellformed (bt : BuiltinTexts) (fs : FS) (t : Translation) :
    (∀ e : BibleLibError, t.get_text bt fs = .error e →
      Bible.new bt fs t = some (.error e)) ∧
    (∀ text : RStr, t.get_text bt fs = .ok text →
      (∀ line ∈ rlines text, (parseLine line).isSome) →
      ∃ b : Bible, Bible.new bt fs t = some (.ok b)) := by
  constructor
  · intro e h
    simp [Bible.new, h]
  · intro text h hlines
    obtain ⟨M, hM⟩ := Option.isSome_iff_exists.mp (parseTextGo_isSome hlines [])
    exact ⟨⟨t, M⟩, by simp [Bible.new, h, parse_text, hM]⟩

/-- Witness for C8 at a concrete well-formed one-line text. -/
theorem C8_witness :
    ∃ b : Bible, Bible.new ⟨[], [], [], []⟩ ⟨fun _ => true, fun _ => .ok (str "b 1:1 x")⟩
      (.Custom (str "n") (str "p")) = some (.ok b) :=
  (C8_new_total_on_wellformed ⟨[], [], [], []⟩ ⟨fun _ => true, fun _ => .ok (str "b 1:1 x")⟩
    (.Custom (str "n") (str "p"))).2 (str "b 1:1 x") rfl (by decide)

/-- Claim C4 counterexample: the claim quantifies over EVERY lookup, but an
empty-range lookup (`thru_verse = Some 1` with start verse 2) on an index
with no books returns `Ok("")` — the book key is absent yet no
`BookNotFound` is raised, so "fails with BookNotFound exactly when the book
key is absent" is false as stated. -/
theorem C4_counterexample :
    alGet (str "a") (Bible.verses ⟨Translation.KingJames, []⟩) = none ∧
    Bible.get_verse ⟨Translation.KingJames, []⟩ ⟨str "a", 1, 2, some 1⟩ false = .ok [] ∧
    Bible.get_verse ⟨Translation.KingJames, []⟩ ⟨str "a", 1, 2, some 1⟩ false ≠
      .error .BookNotFound := by
  refine ⟨rfl, rfl, by decide⟩

/-- Claim C4 (amended): for every lookup that requests at least one verse
(single lookups always do; a range lookup does when its end is at least its
start), `get_verse` fails with `BookNotFound` exactly when the book key is
absent, with `ChapterNotFound` exactly when the book exists but the chapter
is absent, and with `VerseNotFound` exactly when book and chapter exist but
some requested verse is absent — distinct kinds, checked book before
chapter before verse in both the single-verse and the range branch. -/
theorem C4_lookup_error_kinds (B : Bible) (l : BibleLookup) (sup : Bool)
    (hne : requestedVerses l ≠ []) :
    (B.get_verse l sup = .error .BookNotFound ↔ alGet l.book B.verses = none) ∧
    (B.get_verse l sup = .error .ChapterNotFound ↔
      ∃ chm : ChapterMap, alGet l.book B.verses = some chm ∧ alGet l.chapter chm = none) ∧
    (B.get_verse l sup = .error .VerseNotFound ↔
      ∃ chm : ChapterMap, ∃ vm : VerseMap,
        alGet l.book B.verses = some chm ∧ alGet l.chapter chm = some vm ∧
        ∃ v ∈ requestedVerses l, alGet v vm = none) := by
  cases ht : l.thru_verse with
  | some t =>
    have hreq : requestedVerses l = rangeIncl l.verse t := by
      unfold requestedVerses
      rw [ht]
    have hgv : B.get_verse l sup =
        rangeLoop B.verses l.book l.chapter sup (rangeIncl l.verse t) [] := by
      unfold Bible.get_verse
      rw [ht]
    rw [hreq] at hne ⊢
    rw [hgv]
    refine ⟨?_, ?_, ?_⟩
    · rw [rangeLoop_err_book _ []]
      simp [hne]
    · rw [rangeLoop_err_chapter _ []]
      simp [hne]
    · rw [rangeLoop_err_verse _ []]
  | none =>
    have hreq : requestedVerses l = [l.verse] := by
      unfold requestedVerses
      rw [ht]
    unfold Bible.get_verse
    rw [ht, hreq]
    cases hb : alGet l.book B.verses with
    | none => simp [hb]
    | some chm =>
      cases hc : alGet l.chapter chm with
      | none => simp [hb, hc]
      | some vm =>
        cases hv : alGet l.verse vm with
        | none => simp [hb, hc, hv]
        | some tx => simp [hb, hc, hv]

/-- Witness for C4 at a concrete single-verse lookup on an empty index. -/
theorem C4_witness :
    Bible.get_verse ⟨Translation.KingJames, []⟩ ⟨str "a", 1, 1, none⟩ false =
      .error .BookNotFound :=
  (C4_lookup_error_kinds ⟨Translation.KingJames, []⟩ ⟨str "a", 1, 1, none⟩ false
    (by decide)).1.mpr rfl

/-- Claim C3: for a book and chapter present in the index, `get_chapter`
concatenates the chapter's verses in strictly ascending numeric verse order
regardless of insertion order (the listing is a permutation of the stored
entries with strictly increasing verse numbers, and permuting the stored
entries does not change the output), each verse rendered as its text plus
one trailing space, prefixed by its superscript verse number when
`use_superscripts` is set. The key-uniqueness hypothesis `VMapsNodup` holds
for every parsed index by `parse_text_vmaps_nodup`. -/
theorem C3_get_chapter_sorted (B : Bible) (book : RStr) (chapter : Nat) (sup : Bool)
    (chm : ChapterMap) (vm : VerseMap)
    (hwf : VMapsNodup B.verses)
    (hb : alGet book B.verses = some chm) (hc : alGet chapter chm = some vm) :
    ∃ l : VerseMap, l.Perm vm ∧ (l.map Prod.fst).Pairwise (· < ·) ∧
      B.get_chapter book chapter sup =
        .ok ((l.map (fun p =>
          if sup then replace_superscript (natToString p.1) ++ p.2 ++ [' ']
          else p.2 ++ [' '])).flatten) ∧
      ∀ (B' : Bible) (chm' : ChapterMap) (vm' : VerseMap),
        alGet book B'.verses = some chm' → alGet chapter chm' = some vm' →
        vm'.Perm vm →
        B'.get_chapter book chapter sup = B.get_chapter book chapter sup := by
  have hnd : (vm.map Prod.fst).Nodup :=
    hwf chm (List.mem_map_of_mem Prod.snd (alGet_mem hb)) vm
      (List.mem_map_of_mem Prod.snd (alGet_mem hc))
  have hperm : (List.insertionSort keyLe vm).Perm vm := List.perm_insertionSort keyLe vm
  have hsorted : (List.insertionSort keyLe vm).Pairwise keyLe :=
    List.sorted_insertionSort keyLe vm
  have hndl : ((List.insertionSort keyLe vm).map Prod.fst).Nodup :=
    (List.Perm.nodup_iff (hperm.map Prod.fst)).mpr hnd
  have hstrict := sorted_strict_of_nodup hsorted hndl
  have hchap : B.get_chapter book chapter sup =
      .ok ((List.insertionSort keyLe vm).foldl (fun acc p =>
        acc ++ (if sup then replace_superscript (natToString p.1) ++ p.2 ++ [' ']
                else p.2 ++ [' '])) []) := by
    unfold Bible.get_chapter
    simp only [hb, hc]
  refine ⟨List.insertionSort keyLe vm, hperm, List.pairwise_map.mpr hstrict, ?_, ?_⟩
  · rw [hchap, get_chapter_foldl, List.nil_append]
  · intro B' chm' vm' hb' hc' hp'
    have hperm2 : (List.insertionSort keyLe vm').Perm (List.insertionSort keyLe vm) :=
      ((List.perm_insertionSort keyLe vm').trans hp').trans hperm.symm
    have hnd2 : ((List.insertionSort keyLe vm').map Prod.fst).Nodup :=
      (List.Perm.nodup_iff (hperm2.map Prod.fst)).mpr hndl
    have hstrict2 := sorted_strict_of_nodup (List.sorted_insertionSort keyLe vm') hnd2
    have heq : List.insertionSort keyLe vm' = List.insertionSort keyLe vm :=
      List.eq_of_perm_of_sorted hperm2 hstrict2 hstrict
    unfold Bible.get_chapter
    simp only [hb', hc', hb, hc, heq]

/-- Witness for C3 at a concrete index whose chapter entries are stored in
descending verse order. -/
theorem C3_witness :
    ∃ l : VerseMap, l.Perm [(2, str "y"), (1, str "x")] ∧
      (l.map Prod.fst).Pairwise (· < ·) ∧
      Bible.get_chapter ⟨Translation.KingJames, [(str "b", [(1, [(2, str "y"), (1, str "x")])])]⟩
        (str "b") 1 false =
        .ok ((l.map (fun p =>
          if false then replace_superscript (natToString p.1) ++ p.2 ++ [' ']
          else p.2 ++ [' '])).flatten) ∧
      ∀ (B' : Bible) (chm' : ChapterMap) (vm' : VerseMap),
        alGet (str "b") B'.verses = some chm' → alGet 1 chm' = some vm' →
        vm'.Perm [(2, str "y"), (1, str "x")] →
        B'.get_chapter (str "b") 1 false =
          Bible.get_chapter ⟨Translation.KingJames,
            [(str "b", [(1, [(2, str "y"), (1, str "x")])])]⟩ (str "b") 1 false :=
  C3_get_chapter_sorted ⟨Translation.KingJames, [(str "b", [(1, [(2, str "y"), (1, str "x")])])]⟩
    (str "b") 1 false [(1, [(2, str "y"), (1, str "x")])] [(2, str "y"), (1, str "x")]
    (by unfold VMapsNodup; decide) (by decide) (by decide)

/-- Claim C10: `BibleLookup::new` and `new_range` always store the book name
lowercased, so `get_verse` is insensitive to the casing passed to those
constructors; by contrast `get_chapter`, `get_chapters`, `get_verses` and
`get_max_verse` compare their raw book argument against the lowercase index
keys without normalising, so a book argument containing an uppercase letter
makes them fail (`BookNotFound`, or `ChapterNotFound` for the chained
lookups) even when the lowercased name is present. The uppercase-free-keys
hypothesis holds for every parsed index by `parse_text_keys_no_upper`. -/
theorem C10_case_handling (B : Bible) (s : RStr) (c v t : Nat) (sup : Bool) (book : RStr)
    (hkeys : BookKeysNoUpper B.verses)
    (hup : ∃ ch ∈ book, ch.isUpper = true) :
    (BibleLookup.new s c v).book = strToLower s ∧
    (BibleLookup.new_range s c v t).book = strToLower s ∧
    B.get_verse (BibleLookup.new s c v) sup =
      B.get_verse (BibleLookup.new (strToLower s) c v) sup ∧
    B.get_verse (BibleLookup.new_range s c v t) sup =
      B.get_verse (BibleLookup.new_range (strToLower s) c v t) sup ∧
    B.get_chapter book c sup = .error .BookNotFound ∧
    B.get_chapters book = .error .BookNotFound ∧
    B.get_verses book c = .error .ChapterNotFound ∧
    B.get_max_verse book c = .error .ChapterNotFound := by
  have hbook : alGet book B.verses = none := by
    apply alGet_eq_none
    intro p hp heq
    obtain ⟨ch, hch, hchu⟩ := hup
    have hmem : p.1 ∈ B.verses.map Prod.fst := List.mem_map_of_mem Prod.fst hp
    rw [heq] at hmem
    have := hkeys book hmem ch hch
    rw [this] at hchu
    exact Bool.false_ne_true hchu
  refine ⟨rfl, rfl, ?_, ?_, ?_, ?_, ?_, ?_⟩
  · rw [show BibleLookup.new (strToLower s) c v =
      BibleLookup.new s c v from by unfold BibleLookup.new; rw [strToLower_idem]]
  · rw [show BibleLookup.new_range (strToLower s) c v t =
      BibleLookup.new_range s c v t from by unfold BibleLookup.new_range; rw [strToLower_idem]]
  · unfold Bible.get_chapter
    simp only [hbook]
  · unfold Bible.get_chapters
    simp only [hbook]
    rfl
  · unfold Bible.get_verses
    simp only [hbook]
    rfl
  · unfold Bible.get_max_verse
    simp only [hbook]
    rfl

/-- Witness for C10 at a concrete index with the lowercase key `b` and the
uppercase query `B`. -/
theorem C10_witness :
    Bible.get_chapters ⟨Translation.KingJames, [(str "b", [(1, [(1, str "x")])])]⟩ (str "B") =
      .error .BookNotFound ∧
    Bible.get_verse ⟨Translation.KingJames, [(str "b", [(1, [(1, str "x")])])]⟩
      (BibleLookup.new (str "B") 1 1) false =
      Bible.get_verse ⟨Translation.KingJames, [(str "b", [(1, [(1, str "x")])])]⟩
        (BibleLookup.new (strToLower (str "B")) 1 1) false := by
  have h := C10_case_handling ⟨Translation.KingJames, [(str "b", [(1, [(1, str "x")])])]⟩
    (str "B") 1 1 1 false (str "B") (by unfold BookKeysNoUpper; decide) (by decide)
  exact ⟨h.2.2.2.2.2.1, h.2.2.1⟩
